import Mathlib

/-!
Verification of the gorilla-go/go-framework repository's specification
against a shallow Lean embedding of its Go source.

Conventions of the embedding:
* machine integers of the Go source are modelled as `Nat` (all quantities in
  the verified scenarios are non-negative, and Go's integer division on
  non-negative `int64` operands agrees with `Nat` floor division);
* `time.Time` / `time.Duration` values are modelled as nanosecond counts
  (`Nat`), matching the source's own `Nanoseconds()` arithmetic;
* Go strings are modelled as Lean `String` / `List Char`, with the handful
  of `strings.*` stdlib helpers the source uses re-implemented below;
* fallible code returns `Except`; a Go `panic` is an `Except.error`.
-/

namespace GoFramework

/-! ### Rate limiter (pkg/middleware/ratelimit.go)

The `RateLimiter` struct carries `rate` (tokens per interval), `interval`
(always one second, i.e. `10^9` ns, as set by `NewRateLimiter`), `capacity`,
`tokens`, `lastToken` and `lastAccess`.  The mutex only serializes calls and
has no sequential content, so it is not modelled. -/

structure RateLimiter where
  rate : Nat
  interval : Nat
  capacity : Nat
  tokens : Nat
  lastToken : Nat
  lastAccess : Nat
  deriving Repr, DecidableEq

/-- Embedding of `NewRateLimiter(rate, capacity int)`: interval fixed to one
second (`10^9` ns), bucket starts full, both timestamps set to `now`. -/
def newRateLimiter (rate capacity : Nat) (now : Nat) : RateLimiter :=
  { rate := rate
    interval := 1000000000
    capacity := capacity
    tokens := capacity
    lastToken := now
    lastAccess := now }

/-- Two's-complement wrap of a 64-bit signed result: the unique value
congruent to `x` modulo `2^64` lying in `[-2^63, 2^63)`.  Go's `int64`
arithmetic (and `int` on 64-bit platforms, and `time.Duration`) wraps this
way on overflow. -/
def wrap64 (x : Int) : Int := (x + 2 ^ 63) % 2 ^ 64 - 2 ^ 63

theorem wrap64_eq_of_lt (x : Int) (h0 : 0 ≤ x) (hlt : x < 2 ^ 63) : wrap64 x = x := by
  unfold wrap64
  rw [Int.emod_eq_of_lt (by omega) (by omega)]
  omega

/-- Embedding of `(*RateLimiter).Allow()` called at time `now` (ns).

Source, line by line:
`elapsed := now.Sub(r.lastToken)`;
`newTokens := int(elapsed.Nanoseconds() * int64(r.rate) / r.interval.Nanoseconds())`
— the `int64` product wraps at `2^63` (`wrap64`) and the `int64` quotient
truncates toward zero (`Int.tdiv`), with `int(...)` the identity on 64-bit
platforms;
if `newTokens > 0` then `r.tokens += newTokens`,
`r.lastToken = r.lastToken.Add(time.Duration(newTokens) * r.interval / time.Duration(r.rate))`,
and clamp `if r.tokens > r.capacity { r.tokens = r.capacity }`;
finally if `r.tokens > 0` then `r.tokens--; return true` else `return false`.
`r.lastAccess = now` is recorded at the top of the call.

In the taken branch `0 < newTokens`, so `newTokens.toNat` is exact.  The
advance product `newTokens * interval` cannot wrap in Go: `newTokens` is the
truncated quotient of an in-range `int64` by `interval`, hence
`newTokens * interval ≤ 2^63 - 1`.  The sum `tokens + newTokens` is modelled
without a wrap: reaching `2^63` there needs `tokens` (bounded by `capacity`)
plus a quotient bounded by `(2^63-1)/interval`, beyond every scenario the
theorems below quantify over, and a wrapped — negative — Go sum fails the
clamp comparison and only lowers the count further below `capacity`. -/
def RateLimiter.allow (r : RateLimiter) (now : Nat) : Bool × RateLimiter :=
  let elapsed : Int := (now : Int) - (r.lastToken : Int)
  let newTokens : Int := Int.tdiv (wrap64 (elapsed * (r.rate : Int))) (r.interval : Int)
  let r1 : RateLimiter :=
    if 0 < newTokens then
      let t : Nat := r.tokens + newTokens.toNat
      { r with
        lastAccess := now
        tokens := if r.capacity < t then r.capacity else t
        lastToken := r.lastToken +
          (Int.tdiv (newTokens * (r.interval : Int)) (r.rate : Int)).toNat }
    else { r with lastAccess := now }
  if 0 < r1.tokens then (true, { r1 with tokens := r1.tokens - 1 }) else (false, r1)

/-- The `Allow()` refill arithmetic in the non-overflowing regime, as plain
`Nat` arithmetic.  `RateLimiter.allow_eq_no_overflow` proves that `allow`
computes exactly this whenever the `int64` product `elapsed * rate` does not
wrap, i.e. whenever `lastToken ≤ now` and `(now - lastToken) * rate < 2^63`. -/
def RateLimiter.allowNoOverflow (r : RateLimiter) (now : Nat) : Bool × RateLimiter :=
  let newTokens : Nat := (now - r.lastToken) * r.rate / r.interval
  let r1 : RateLimiter :=
    if 0 < newTokens then
      let t : Nat := r.tokens + newTokens
      { r with
        lastAccess := now
        tokens := if r.capacity < t then r.capacity else t
        lastToken := r.lastToken + newTokens * r.interval / r.rate }
    else { r with lastAccess := now }
  if 0 < r1.tokens then (true, { r1 with tokens := r1.tokens - 1 }) else (false, r1)

/-- When the `int64` product `elapsed * rate` stays below `2^63`, the
wrapped computation of `Allow()` coincides with the plain `Nat`
computation. -/
theorem RateLimiter.allow_eq_no_overflow (r : RateLimiter) (now : Nat)
    (hL : r.lastToken ≤ now) (hov : (now - r.lastToken) * r.rate < 2 ^ 63) :
    r.allow now = r.allowNoOverflow now := by
  have hcast_mul : ∀ m n : Nat, (m : Int) * (n : Int) = ((m * n : Nat) : Int) := by
    intro m n
    push_cast
    ring
  have hcast_tdiv : ∀ m n : Nat, Int.tdiv (m : Int) (n : Int) = ((m / n : Nat) : Int) := by
    intro m n
    exact_mod_cast (Int.ofNat_tdiv m n).symm
  unfold RateLimiter.allow RateLimiter.allowNoOverflow
  dsimp only
  have hsub : (now : Int) - (r.lastToken : Int) = ((now - r.lastToken : Nat) : Int) := by
    omega
  rw [hsub, hcast_mul]
  rw [wrap64_eq_of_lt _ (by omega) (by exact_mod_cast hov)]
  rw [hcast_tdiv, hcast_mul, hcast_tdiv]
  simp only [Int.toNat_natCast, Nat.cast_pos]

/-- State of the limiter after `k` consecutive `Allow()` calls, all issued at
the same instant `now` (the claims' "no further time elapses" scenario). -/
def RateLimiter.iterate (r : RateLimiter) (now : Nat) : Nat → RateLimiter
  | 0 => r
  | k + 1 => ((r.iterate now k).allow now).2

/-- Result of the `(i+1)`-th of a run of consecutive `Allow()` calls, all
issued at the same instant `now` (`i` is 0-based). -/
def RateLimiter.nthCall (r : RateLimiter) (now : Nat) (i : Nat) : Bool :=
  ((r.iterate now i).allow now).1

/-! ### Rate limiter lemmas -/

/-- `Allow()` never changes the `rate`, `interval` or `capacity` fields. -/
theorem RateLimiter.allow_params (r : RateLimiter) (now : Nat) :
    ((r.allow now).2).rate = r.rate ∧ ((r.allow now).2).interval = r.interval ∧
      ((r.allow now).2).capacity = r.capacity := by
  unfold RateLimiter.allow
  dsimp only
  repeat' split
  all_goals simp

/-- When the elapsed time is worth no whole token, `Allow()` just decrements
the bucket (saturating at zero) and reports whether a token was available. -/
theorem RateLimiter.allow_of_no_refill (r : RateLimiter) (now : Nat)
    (hL : r.lastToken ≤ now) (hov : (now - r.lastToken) * r.rate < 2 ^ 63)
    (hlt : (now - r.lastToken) * r.rate < r.interval) :
    r.allow now =
      (decide (0 < r.tokens), { r with lastAccess := now, tokens := r.tokens - 1 }) := by
  have h0 : (now - r.lastToken) * r.rate / r.interval = 0 := Nat.div_eq_of_lt hlt
  rw [r.allow_eq_no_overflow now hL hov]
  unfold RateLimiter.allowNoOverflow
  dsimp only
  rw [h0]
  simp only [lt_irrefl, if_false]
  by_cases h : 0 < r.tokens
  · simp [h]
  · have : r.tokens = 0 := by omega
    simp [this]

/-- When the bucket is empty and the elapsed time is worth at least
`capacity` tokens, `Allow()` refills to capacity, consumes one token, and
advances `lastToken` by the minted tokens' worth of time. -/
theorem RateLimiter.allow_of_refill_ge (r : RateLimiter) (now : Nat)
    (hL : r.lastToken ≤ now) (hov : (now - r.lastToken) * r.rate < 2 ^ 63)
    (hI : 0 < r.interval) (hC : 0 < r.capacity) (h0 : r.tokens = 0)
    (hge : r.capacity * r.interval ≤ (now - r.lastToken) * r.rate) :
    r.allow now =
      (true,
        { r with lastAccess := now, tokens := r.capacity - 1,
                 lastToken := r.lastToken +
                   ((now - r.lastToken) * r.rate / r.interval) * r.interval / r.rate }) := by
  have hn : r.capacity ≤ (now - r.lastToken) * r.rate / r.interval :=
    (Nat.le_div_iff_mul_le hI).2 hge
  have hpos : 0 < (now - r.lastToken) * r.rate / r.interval := lt_of_lt_of_le hC hn
  rw [r.allow_eq_no_overflow now hL hov]
  unfold RateLimiter.allowNoOverflow
  dsimp only
  rw [if_pos hpos, h0]
  simp only [Nat.zero_add]
  by_cases hclamp : r.capacity < (now - r.lastToken) * r.rate / r.interval
  · rw [if_pos hclamp, if_pos hC]
  · have heq : (now - r.lastToken) * r.rate / r.interval = r.capacity := by omega
    rw [if_neg hclamp, heq, if_pos hC]

/-- When the elapsed time is worth exactly one token and the bucket is below
capacity, `Allow()` mints one token, immediately consumes it, and advances
`lastToken` by one token's worth of time. -/
theorem RateLimiter.allow_of_refill_one (r : RateLimiter) (now : Nat)
    (hL : r.lastToken ≤ now) (hov : (now - r.lastToken) * r.rate < 2 ^ 63)
    (hn1 : (now - r.lastToken) * r.rate / r.interval = 1)
    (hcap : r.tokens < r.capacity) :
    r.allow now =
      (true,
        { r with lastAccess := now, tokens := r.tokens,
                 lastToken := r.lastToken + r.interval / r.rate }) := by
  rw [r.allow_eq_no_overflow now hL hov]
  unfold RateLimiter.allowNoOverflow
  dsimp only
  rw [hn1]
  simp only [Nat.lt_irrefl, Nat.one_mul, Nat.zero_lt_one, if_true]
  have hnc : ¬ r.capacity < r.tokens + 1 := by omega
  rw [if_neg hnc]
  simp

/-- Running `k + 1` consecutive calls is one call followed by `k` calls from
the resulting state. -/
theorem RateLimiter.iterate_shift (r : RateLimiter) (now : Nat) (k : Nat) :
    r.iterate now (k + 1) = ((r.allow now).2).iterate now k := by
  induction k with
  | zero => rfl
  | succ k ih =>
      show ((r.iterate now (k + 1)).allow now).2 = _
      rw [ih]
      rfl

theorem RateLimiter.nthCall_shift (r : RateLimiter) (now : Nat) (k : Nat) :
    r.nthCall now (k + 1) = ((r.allow now).2).nthCall now k := by
  unfold RateLimiter.nthCall
  rw [RateLimiter.iterate_shift]

/-- Steady state: once the outstanding elapsed time is worth no whole token,
repeated calls at the same instant leave `lastToken` (and the configuration)
unchanged and drain the bucket one token per call. -/
theorem RateLimiter.iterate_steady (r : RateLimiter) (now : Nat)
    (hL : r.lastToken ≤ now) (hov : (now - r.lastToken) * r.rate < 2 ^ 63)
    (hlt : (now - r.lastToken) * r.rate < r.interval) :
    ∀ k : Nat,
      (r.iterate now k).tokens = r.tokens - k ∧
      (r.iterate now k).lastToken = r.lastToken ∧
      (r.iterate now k).rate = r.rate ∧
      (r.iterate now k).interval = r.interval ∧
      (r.iterate now k).capacity = r.capacity := by
  intro k
  induction k with
  | zero => exact ⟨rfl, rfl, rfl, rfl, rfl⟩
  | succ k ih =>
      obtain ⟨htok, hlast, hrate, hint, hcap⟩ := ih
      have hL2 : (r.iterate now k).lastToken ≤ now := by rw [hlast]; exact hL
      have hov2 : (now - (r.iterate now k).lastToken) * (r.iterate now k).rate
          < 2 ^ 63 := by
        rw [hlast, hrate]; exact hov
      have hlt2 : (now - (r.iterate now k).lastToken) * (r.iterate now k).rate
          < (r.iterate now k).interval := by
        rw [hlast, hrate, hint]; exact hlt
      have hiter : r.iterate now (k + 1) = (((r.iterate now k)).allow now).2 := rfl
      rw [hiter, RateLimiter.allow_of_no_refill _ _ hL2 hov2 hlt2]
      refine ⟨?_, ?_, ?_, ?_, ?_⟩
      · simp only [htok]; omega
      · simp only [hlast]
      · simp only [hrate]
      · simp only [hint]
      · simp only [hcap]

/-- In the steady state the `(i+1)`-th call succeeds exactly when the bucket
still holds more than `i` tokens. -/
theorem RateLimiter.nthCall_steady (r : RateLimiter) (now : Nat)
    (hL : r.lastToken ≤ now) (hov : (now - r.lastToken) * r.rate < 2 ^ 63)
    (hlt : (now - r.lastToken) * r.rate < r.interval) (i : Nat) :
    r.nthCall now i = decide (i < r.tokens) := by
  obtain ⟨htok, hlast, hrate, hint, _⟩ := r.iterate_steady now hL hov hlt i
  have hL2 : (r.iterate now i).lastToken ≤ now := by rw [hlast]; exact hL
  have hov2 : (now - (r.iterate now i).lastToken) * (r.iterate now i).rate < 2 ^ 63 := by
    rw [hlast, hrate]; exact hov
  have hlt2 : (now - (r.iterate now i).lastToken) * (r.iterate now i).rate
      < (r.iterate now i).interval := by
    rw [hlast, hrate, hint]; exact hlt
  unfold RateLimiter.nthCall
  rw [RateLimiter.allow_of_no_refill _ _ hL2 hov2 hlt2, htok]
  simp only [decide_eq_decide]
  omega

/-- Arithmetic of the `lastToken` advance: writing `e` for the elapsed time,
`R` for the rate and `I` for the interval, the advance
`(e * R / I) * I / R` never overshoots `e`, and the elapsed time still
outstanding afterwards is exactly the fractional refill remainder
`e * R % I` plus the truncation remainder `((e * R / I) * I) % R`
(both measured in token-nanoseconds). -/
theorem refill_advance_arith (e R I : Nat) (hR : 0 < R) :
    (e * R / I) * I / R ≤ e ∧
    (e - (e * R / I) * I / R) * R = e * R % I + ((e * R / I) * I) % R := by
  have hBA : (e * R / I) * I ≤ e * R := Nat.div_mul_le_self (e * R) I
  have hq : (e * R / I) * I / R ≤ e := by
    calc (e * R / I) * I / R ≤ e * R / R := Nat.div_le_div_right hBA
    _ = e := Nat.mul_div_cancel e hR
  refine ⟨hq, ?_⟩
  have h1 : I * (e * R / I) + e * R % I = e * R := Nat.div_add_mod (e * R) I
  have h2 : R * ((e * R / I) * I / R) + ((e * R / I) * I) % R = (e * R / I) * I :=
    Nat.div_add_mod ((e * R / I) * I) R
  have h3 : (e - (e * R / I) * I / R) * R = e * R - ((e * R / I) * I / R) * R :=
    Nat.sub_mul e _ R
  have h4 : I * (e * R / I) = (e * R / I) * I := Nat.mul_comm _ _
  have h5 : R * ((e * R / I) * I / R) = ((e * R / I) * I / R) * R := Nat.mul_comm _ _
  omega

/-! ### Claims C1, C5, C7 -/

set_option maxRecDepth 16000 in
/-- Claim C1, counterexample.  A limiter created by `NewRateLimiter(7, 5)` at
time 0 and drained by five immediate calls reaches the state
`tokens = 0, lastToken = 0`.  After an idle period of `857142857` ns, which is
at least `C/R = 5/7` s (`5 * 10^9 ≤ 857142857 * 7`), the claim predicts that
the `(C+1)`-th = 6th consecutive call returns `false`; the code returns
`true` for it, because the truncated `lastToken` advance of the first refill
leaves enough residual elapsed time to mint one extra token on the second
call. -/
theorem c1_counterexample :
    ((newRateLimiter 7 5 0).iterate 0 5).tokens = 0 ∧
    ((newRateLimiter 7 5 0).iterate 0 5).lastToken = 0 ∧
    5 * 1000000000 ≤ (857142857 - 0) * 7 ∧
    ((newRateLimiter 7 5 0).iterate 0 5).nthCall 857142857 5 = true := by
  refine ⟨by decide, by decide, by decide, by decide⟩

/-- Claim C1, amended.  For a drained token bucket (`tokens = 0`) with
`0 < rate ≤ interval` and `0 < capacity`, after an idle period worth at
least `capacity` tokens (`capacity * interval ≤ elapsed * rate`) whose
token-nanosecond product stays within `int64`
(`elapsed * rate < 2^63`, so the source's product does not wrap), the next
`capacity` consecutive `Allow()` calls at one instant all return `true`, and
the `(capacity+2)`-th returns `false`.  (The `(capacity+1)`-th call may
return either value: the truncated `lastToken` advance can leave enough
residual elapsed time to mint one extra token, as the counterexample
shows.) -/
theorem c1_amended (r : RateLimiter) (now : Nat)
    (hR : 0 < r.rate) (hRI : r.rate ≤ r.interval)
    (hC : 0 < r.capacity) (hdrained : r.tokens = 0) (hL : r.lastToken ≤ now)
    (hov : (now - r.lastToken) * r.rate < 2 ^ 63)
    (hidle : r.capacity * r.interval ≤ (now - r.lastToken) * r.rate) :
    (∀ i, i < r.capacity → r.nthCall now i = true) ∧
      r.nthCall now (r.capacity + 1) = false := by
  have hI : 0 < r.interval := lt_of_lt_of_le hR hRI
  have hstep1 := r.allow_of_refill_ge now hL hov hI hC hdrained hidle
  -- facts about the state after the first call
  have ht1 : ((r.allow now).2).tokens = r.capacity - 1 := by rw [hstep1]
  have hl1 : ((r.allow now).2).lastToken = r.lastToken +
      ((now - r.lastToken) * r.rate / r.interval) * r.interval / r.rate := by
    rw [hstep1]
  have hrate1 : ((r.allow now).2).rate = r.rate := (r.allow_params now).1
  have hint1 : ((r.allow now).2).interval = r.interval := (r.allow_params now).2.1
  have hcap1 : ((r.allow now).2).capacity = r.capacity := (r.allow_params now).2.2
  have first : r.nthCall now 0 = true := by
    show (r.allow now).1 = true
    rw [hstep1]
  obtain ⟨hqle, harith⟩ := refill_advance_arith (now - r.lastToken) r.rate r.interval hR
  have hm1 : (now - r.lastToken) * r.rate % r.interval < r.interval := Nat.mod_lt _ hI
  have hm2 : (((now - r.lastToken) * r.rate / r.interval) * r.interval) % r.rate
      < r.rate := Nat.mod_lt _ hR
  have he2 : now - ((r.allow now).2).lastToken = (now - r.lastToken) -
      ((now - r.lastToken) * r.rate / r.interval) * r.interval / r.rate := by
    rw [hl1]; omega
  have hE2 : (now - ((r.allow now).2).lastToken) * r.rate
      = (now - r.lastToken) * r.rate % r.interval
        + (((now - r.lastToken) * r.rate / r.interval) * r.interval) % r.rate := by
    rw [he2]; exact harith
  -- the first call's advance keeps `lastToken ≤ now` and the product in range
  have hL1 : ((r.allow now).2).lastToken ≤ now := by
    rw [hl1]; omega
  have hle1 : now - ((r.allow now).2).lastToken ≤ now - r.lastToken := by
    rw [he2]
    exact Nat.sub_le _ _
  have hov1 : (now - ((r.allow now).2).lastToken) * r.rate < 2 ^ 63 :=
    lt_of_le_of_lt (Nat.mul_le_mul_right _ hle1) hov
  have hov1r : (now - ((r.allow now).2).lastToken) * ((r.allow now).2).rate < 2 ^ 63 := by
    rw [hrate1]; exact hov1
  by_cases h2 : (now - ((r.allow now).2).lastToken) * r.rate < r.interval
  · -- no further token is ever minted: pure drain from capacity - 1 tokens
    have hlt : (now - ((r.allow now).2).lastToken) * ((r.allow now).2).rate
        < ((r.allow now).2).interval := by
      rw [hrate1, hint1]; exact h2
    have hsteady := RateLimiter.nthCall_steady ((r.allow now).2) now hL1 hov1r hlt
    constructor
    · intro i hi
      match i with
      | 0 => exact first
      | Nat.succ j =>
          rw [RateLimiter.nthCall_shift, hsteady j, ht1]
          have hj : j < r.capacity - 1 := by omega
          simp [hj]
    · rw [RateLimiter.nthCall_shift, hsteady _, ht1]
      have hn : ¬ (r.capacity < r.capacity - 1) := by omega
      simp [hn]
  · -- exactly one more token is minted, on the second call
    have hge2 : r.interval ≤ (now - ((r.allow now).2).lastToken) * r.rate := by omega
    have hlt2R : (now - ((r.allow now).2).lastToken) * r.rate
        < r.interval + r.rate := by
      rw [hE2]; omega
    have hn2 : (now - ((r.allow now).2).lastToken) * ((r.allow now).2).rate
        / ((r.allow now).2).interval = 1 := by
      rw [hrate1, hint1]
      have hle1d := (Nat.le_div_iff_mul_le hI).2
        (by omega : 1 * r.interval ≤ (now - ((r.allow now).2).lastToken) * r.rate)
      have hlt1d := (Nat.div_lt_iff_lt_mul hI).2
        (by omega : (now - ((r.allow now).2).lastToken) * r.rate < 2 * r.interval)
      omega
    have hcap2 : ((r.allow now).2).tokens < ((r.allow now).2).capacity := by
      rw [ht1, hcap1]; omega
    have hstep2 := RateLimiter.allow_of_refill_one ((r.allow now).2) now hL1 hov1r hn2 hcap2
    have ht2 : ((((r.allow now).2).allow now).2).tokens = r.capacity - 1 := by
      rw [hstep2]
      exact ht1
    have hl2 : ((((r.allow now).2).allow now).2).lastToken
        = ((r.allow now).2).lastToken + r.interval / r.rate := by
      rw [hstep2]
      show ((r.allow now).2).lastToken + ((r.allow now).2).interval / ((r.allow now).2).rate
          = ((r.allow now).2).lastToken + r.interval / r.rate
      rw [hrate1, hint1]
    have hrate2 : ((((r.allow now).2).allow now).2).rate = r.rate := by
      rw [(((r.allow now).2).allow_params now).1, hrate1]
    have hint2 : ((((r.allow now).2).allow now).2).interval = r.interval := by
      rw [(((r.allow now).2).allow_params now).2.1, hint1]
    have second : ((r.allow now).2).nthCall now 0 = true := by
      show (((r.allow now).2).allow now).1 = true
      rw [hstep2]
    -- after the second refill the residual elapsed time is worth no token
    have hq2R : r.rate * (r.interval / r.rate) + r.interval % r.rate = r.interval :=
      Nat.div_add_mod r.interval r.rate
    have hq2le : r.interval / r.rate ≤ now - ((r.allow now).2).lastToken := by
      have h1 : (r.interval / r.rate) * r.rate ≤ r.interval := Nat.div_mul_le_self _ _
      have h2' : (r.interval / r.rate) * r.rate
          ≤ (now - ((r.allow now).2).lastToken) * r.rate := le_trans h1 hge2
      exact Nat.le_of_mul_le_mul_right h2' hR
    have hL2 : ((((r.allow now).2).allow now).2).lastToken ≤ now := by
      rw [hl2]; omega
    have he3 : now - ((((r.allow now).2).allow now).2).lastToken
        = (now - ((r.allow now).2).lastToken) - r.interval / r.rate := by
      rw [hl2]; omega
    have hle3 : now - ((((r.allow now).2).allow now).2).lastToken
        ≤ now - ((r.allow now).2).lastToken := by
      rw [he3]
      exact Nat.sub_le _ _
    have hov3 : (now - ((((r.allow now).2).allow now).2).lastToken) * r.rate < 2 ^ 63 :=
      lt_of_le_of_lt (Nat.mul_le_mul_right _ hle3) hov1
    have hov3r : (now - ((((r.allow now).2).allow now).2).lastToken)
        * ((((r.allow now).2).allow now).2).rate < 2 ^ 63 := by
      rw [hrate2]; exact hov3
    have hE3 : (now - ((((r.allow now).2).allow now).2).lastToken) * r.rate
        = (now - ((r.allow now).2).lastToken) * r.rate
          - (r.interval / r.rate) * r.rate := by
      rw [he3]; exact Nat.sub_mul _ _ _
    have hE3lt : (now - ((((r.allow now).2).allow now).2).lastToken) * r.rate
        < r.interval := by
      rw [hE3]
      have hcomm : r.rate * (r.interval / r.rate) = (r.interval / r.rate) * r.rate :=
        Nat.mul_comm _ _
      by_cases hRR : 2 * r.rate ≤ r.interval
      · have hmR : r.interval % r.rate < r.rate := Nat.mod_lt _ hR
        omega
      · have hmod : r.interval % r.rate = r.interval - r.rate := by
          rw [Nat.mod_eq_sub_mod hRI]
          exact Nat.mod_eq_of_lt (by omega)
        omega
    have hlt3 : (now - ((((r.allow now).2).allow now).2).lastToken)
        * ((((r.allow now).2).allow now).2).rate
        < ((((r.allow now).2).allow now).2).interval := by
      rw [hrate2, hint2]; exact hE3lt
    have hsteady := RateLimiter.nthCall_steady ((((r.allow now).2).allow now).2) now
      hL2 hov3r hlt3
    constructor
    · intro i hi
      match i with
      | 0 => exact first
      | 1 =>
          rw [RateLimiter.nthCall_shift]
          exact second
      | Nat.succ (Nat.succ j) =>
          rw [RateLimiter.nthCall_shift, RateLimiter.nthCall_shift, hsteady j, ht2]
          have hj : j < r.capacity - 1 := by omega
          simp [hj]
    · have hidx : r.capacity + 1 = (r.capacity - 1) + 1 + 1 := by omega
      rw [hidx, RateLimiter.nthCall_shift, RateLimiter.nthCall_shift,
        hsteady (r.capacity - 1), ht2]
      have hn : ¬ (r.capacity - 1 < r.capacity - 1) := by omega
      simp [hn]

/-- Claim C1, amended, witness: rate 2, capacity 3, drained bucket at time 0,
queried after exactly `C/R = 1.5` s: the first three calls succeed and the
fifth fails. -/
theorem c1_amended_witness :
    ({ rate := 2, interval := 1000000000, capacity := 3, tokens := 0,
       lastToken := 0, lastAccess := 0 } : RateLimiter).nthCall 1500000000 0 = true ∧
    ({ rate := 2, interval := 1000000000, capacity := 3, tokens := 0,
       lastToken := 0, lastAccess := 0 } : RateLimiter).nthCall 1500000000 1 = true ∧
    ({ rate := 2, interval := 1000000000, capacity := 3, tokens := 0,
       lastToken := 0, lastAccess := 0 } : RateLimiter).nthCall 1500000000 2 = true ∧
    ({ rate := 2, interval := 1000000000, capacity := 3, tokens := 0,
       lastToken := 0, lastAccess := 0 } : RateLimiter).nthCall 1500000000 4 = false := by
  have h := c1_amended
    ({ rate := 2, interval := 1000000000, capacity := 3, tokens := 0,
       lastToken := 0, lastAccess := 0 } : RateLimiter) 1500000000
    (by decide) (by decide) (by decide) (by decide) (by decide) (by decide) (by decide)
  exact ⟨h.1 0 (by decide), h.1 1 (by decide), h.1 2 (by decide), h.2⟩

/-- Claim C5: when `newTokens > 0` tokens are minted, `Allow()` advances
`lastToken` by exactly the minted tokens' worth of time
`newTokens * interval / rate` — not to `now` — so that the advanced timestamp
never overshoots `now`, and the elapsed time still outstanding afterwards is
exactly the fractional refill remainder not yet worth a whole token
(`elapsed * rate % interval`, plus the sub-nanosecond truncation remainder
`(newTokens * interval) % rate`).  The hypothesis `elapsed * rate < 2^63`
confines the statement to the regime where the source's `int64` product does
not wrap, so that `newTokens` really is the elapsed-derived count. -/
theorem c5_lastToken_advanced_by_minted_duration (r : RateLimiter) (now : Nat)
    (hR : 0 < r.rate) (hL : r.lastToken ≤ now)
    (hov : (now - r.lastToken) * r.rate < 2 ^ 63)
    (hmint : 0 < (now - r.lastToken) * r.rate / r.interval) :
    ((r.allow now).2).lastToken
        = r.lastToken + ((now - r.lastToken) * r.rate / r.interval) * r.interval / r.rate ∧
    ((r.allow now).2).lastToken ≤ now ∧
    (now - ((r.allow now).2).lastToken) * r.rate
        = (now - r.lastToken) * r.rate % r.interval
          + (((now - r.lastToken) * r.rate / r.interval) * r.interval) % r.rate := by
  obtain ⟨hqle, harith⟩ := refill_advance_arith (now - r.lastToken) r.rate r.interval hR
  have hlast : ((r.allow now).2).lastToken
      = r.lastToken + ((now - r.lastToken) * r.rate / r.interval) * r.interval / r.rate := by
    rw [r.allow_eq_no_overflow now hL hov]
    unfold RateLimiter.allowNoOverflow
    dsimp only
    rw [if_pos hmint]
    repeat' split
    all_goals rfl
  refine ⟨hlast, ?_, ?_⟩
  · rw [hlast]; omega
  · rw [hlast]
    have heq : now - (r.lastToken +
        ((now - r.lastToken) * r.rate / r.interval) * r.interval / r.rate)
        = (now - r.lastToken) -
          ((now - r.lastToken) * r.rate / r.interval) * r.interval / r.rate := by
      omega
    rw [heq]
    exact harith

/-- Claim C5, witness: rate 2, interval 4, elapsed 3: one token is minted,
`lastToken` advances by `(1 * 4) / 2 = 2` (not to `now = 3`), and the
outstanding elapsed time times the rate equals `6 % 4 + 4 % 2 = 2`. -/
theorem c5_witness :
    ((({ rate := 2, interval := 4, capacity := 1, tokens := 0,
         lastToken := 0, lastAccess := 0 } : RateLimiter).allow 3).2).lastToken
        = 0 + ((3 - 0) * 2 / 4) * 4 / 2 ∧
    ((({ rate := 2, interval := 4, capacity := 1, tokens := 0,
         lastToken := 0, lastAccess := 0 } : RateLimiter).allow 3).2).lastToken ≤ 3 ∧
    (3 - ((({ rate := 2, interval := 4, capacity := 1, tokens := 0,
              lastToken := 0, lastAccess := 0 } : RateLimiter).allow 3).2).lastToken) * 2
        = (3 - 0) * 2 % 4 + (((3 - 0) * 2 / 4) * 4) % 2 :=
  c5_lastToken_advanced_by_minted_duration
    ({ rate := 2, interval := 4, capacity := 1, tokens := 0,
       lastToken := 0, lastAccess := 0 } : RateLimiter) 3
    (by decide) (by decide) (by decide) (by decide)

/-- Claim C7: `tokens ≤ capacity` is an invariant: it holds for a limiter
created by `NewRateLimiter` and is preserved by `Allow()` for every rate,
capacity and idle duration (the refill clamps the token count to
capacity). -/
theorem c7_tokens_never_exceed_capacity :
    (∀ rate capacity now0 : Nat,
        (newRateLimiter rate capacity now0).tokens
          ≤ (newRateLimiter rate capacity now0).capacity) ∧
    ∀ (r : RateLimiter) (now : Nat), r.tokens ≤ r.capacity →
        ((r.allow now).2).tokens ≤ ((r.allow now).2).capacity := by
  constructor
  · intro rate capacity now0
    exact Nat.le_refl _
  · intro r now h
    unfold RateLimiter.allow
    dsimp only
    repeat' split
    all_goals dsimp only
    all_goals omega

/-- Claim C7, witness: the invariant holds after one call on a fresh limiter
with rate 2 and capacity 3. -/
theorem c7_witness :
    (((newRateLimiter 2 3 0).allow 5).2).tokens
      ≤ (((newRateLimiter 2 3 0).allow 5).2).capacity :=
  c7_tokens_never_exceed_capacity.2 (newRateLimiter 2 3 0) 5 (by decide)

/-! ### String helpers

Re-implementations, on `List Char`, of the Go `strings` stdlib functions the
source uses: `strings.HasPrefix` (`leadsWith`), `strings.Contains`
(`containsSub`), `strings.ReplaceAll` (`replaceAllL`), and splitting on a
one-character separator (`splitOnChar`, used for `strings.SplitSeq(path, "/")`).
All are fuel-free structural recursions (or carry an explicit length fuel) so
that they evaluate inside the kernel. -/

def leadsWith : List Char → List Char → Bool
  | [], _ => true
  | _ :: _, [] => false
  | p :: ps, c :: cs => p = c && leadsWith ps cs

def containsSub (pat : List Char) : List Char → Bool
  | [] => leadsWith pat []
  | c :: t => leadsWith pat (c :: t) || containsSub pat t

def splitOnChar (sep : Char) : List Char → List (List Char)
  | [] => [[]]
  | c :: cs =>
      if c = sep then [] :: splitOnChar sep cs
      else
        match splitOnChar sep cs with
        | [] => [[c]]
        | p :: ps => (c :: p) :: ps

/-- `strings.ReplaceAll` with an explicit fuel (one unit per scanned
character; the callers pass the haystack length, which always suffices
because every step consumes at least one character).  The patterns used by
the source (`":" + key`, a full `<...>` match) are never empty. -/
def replaceAllAux (pat rep : List Char) : Nat → List Char → List Char
  | _, [] => []
  | 0, l => l
  | fuel + 1, c :: t =>
      if leadsWith pat (c :: t) then
        rep ++ replaceAllAux pat rep fuel (List.drop (pat.length - 1) t)
      else c :: replaceAllAux pat rep fuel t

def replaceAllL (pat rep l : List Char) : List Char :=
  replaceAllAux pat rep l.length l

def strContains (s pat : String) : Bool := containsSub pat.data s.data

def strReplaceAll (s pat rep : String) : String :=
  String.mk (replaceAllL pat.data rep.data s.data)

theorem leadsWith_nil_left (l : List Char) : leadsWith [] l = true := by
  cases l <;> rfl

/-- Every character of every part of a split occurs in the original list. -/
theorem mem_of_mem_splitOnChar (sep : Char) (l : List Char) :
    ∀ part ∈ splitOnChar sep l, ∀ c ∈ part, c ∈ l := by
  induction l with
  | nil =>
      intro part hp c hc
      simp only [splitOnChar, List.mem_singleton] at hp
      subst hp
      cases hc
  | cons x xs ih =>
      intro part hp c hc
      simp only [splitOnChar] at hp
      by_cases hx : x = sep
      · rw [if_pos hx] at hp
        rcases List.mem_cons.1 hp with h | h
        · subst h; cases hc
        · exact List.mem_cons_of_mem x (ih part h c hc)
      · rw [if_neg hx] at hp
        rcases hsplit : splitOnChar sep xs with _ | ⟨p, ps⟩
        · rw [hsplit] at hp
          simp only [List.mem_singleton] at hp
          subst hp
          rcases List.mem_singleton.1 hc with rfl
          exact List.mem_cons_self _ _
        · rw [hsplit] at hp
          rcases List.mem_cons.1 hp with h | h
          · subst h
            rcases List.mem_cons.1 hc with rfl | h2
            · exact List.mem_cons_self _ _
            · refine List.mem_cons_of_mem x (ih p ?_ c h2)
              rw [hsplit]; exact List.mem_cons_self _ _
          · exact List.mem_cons_of_mem x
              (ih part (by rw [hsplit]; exact List.mem_cons_of_mem p h) c hc)

/-- A one-character needle is contained in a list iff it occurs in it. -/
theorem containsSub_singleton (c : Char) (l : List Char) :
    containsSub [c] l = true ↔ c ∈ l := by
  induction l with
  | nil => simp [containsSub, leadsWith]
  | cons x xs ih =>
      simp only [containsSub, leadsWith, Bool.or_eq_true, Bool.and_eq_true,
        List.mem_cons, ih, decide_eq_true_eq, leadsWith_nil_left, and_true]

/-! ### Route registry and `BuildUrl` (pkg/router/builder.go and the
error-returning variant of the same file)

`Route` carries the registered name, the accumulated full path and the HTTP
method; the `gin.HandlerFunc` field is an external function pointer with no
bearing on URL building and is omitted.  The name → Route map (written once
at startup under a lock) is modelled as an association list.  Go map
iteration over the caller-supplied parameter map is modelled as iteration
over an association list (the iteration order only matters when one
placeholder name is a prefix of another; the claims use one-key maps). -/

structure Route where
  name : String
  path : String
  method : String
  deriving Repr, DecidableEq

/-- Parameter values passed to `BuildUrl` (`map[string]any`); the claims use
strings, ints and bools. -/
inductive GoValue where
  | str (s : String)
  | int (i : Int)
  | bool (b : Bool)
  deriving Repr, DecidableEq

/-- `fmt.Sprintf("%v", value)` for the modelled value kinds (the panicking
`BuildUrl` variant stringifies every parameter this way). -/
def sprintfV : GoValue → String
  | .str s => s
  | .int i => toString i
  | .bool b => if b then "true" else "false"

/-- The error-returning `BuildUrl` variant stringifies through a type
switch: strings verbatim, integers with `%d`, bools with `%t` (floats with
`%g` are not modelled).  On the modelled kinds this agrees with `%v`. -/
def formatValueTyped : GoValue → String
  | .str s => s
  | .int i => toString i
  | .bool b => if b then "true" else "false"

def lookupRoute (routes : List (String × Route)) (name : String) : Option Route :=
  routes.lookup name

inductive BuildUrlError where
  | routeNotFound (name : String)
  | missingParams (names : List String)
  deriving Repr, DecidableEq

/-- The parameter-substitution loop shared by both variants: for each
supplied `key, value`, replace every occurrence of `":" + key` (the panic
variant guards with `strings.Contains` first; `strings.Replace(..., -1)` in
the other variant is the same `ReplaceAll`). -/
def substituteParams (path : String) (params : List (String × GoValue)) : String :=
  params.foldl
    (fun p kv =>
      if strContains p (":" ++ kv.1) then
        strReplaceAll p (":" ++ kv.1) (sprintfV kv.2)
      else p)
    path

/-- The unguarded substitution loop of the error-returning variant. -/
def substituteParamsTyped (path : String) (params : List (String × GoValue)) : String :=
  params.foldl
    (fun p kv => strReplaceAll p (":" ++ kv.1) (formatValueTyped kv.2))
    path

/-- `strings.CutPrefix(part, ":")` restricted to its successful payload. -/
def cutColon (part : List Char) : Option (List Char) :=
  if leadsWith [':'] part then some (part.drop 1) else none

/-- The missing-parameter scan of the panicking `BuildUrl`: if the path
still contains `":"`, split on `"/"` and collect every segment's remainder
after cutting a `":"` prefix. -/
def collectMissing (path : String) : List String :=
  if strContains path ":" then
    (splitOnChar '/' path.data).filterMap (fun part => (cutColon part).map String.mk)
  else []

/-- Embedding of the panicking `BuildUrl(name, params...)` of
pkg/router/builder.go; both panics become `Except.error`. -/
def buildUrl (routes : List (String × Route)) (name : String)
    (params : List (String × GoValue)) : Except BuildUrlError String :=
  match lookupRoute routes name with
  | none => .error (.routeNotFound name)
  | some route =>
      let path := substituteParams route.path params
      let missing := collectMissing path
      if missing.isEmpty then .ok path else .error (.missingParams missing)

/-- Embedding of the error-returning `BuildUrl` variant: an unregistered
name yields an error; after substitution the path is returned as-is (no
missing-parameter check). -/
def buildUrlTyped (routes : List (String × Route)) (name : String)
    (params : List (String × GoValue)) : Except BuildUrlError String :=
  match lookupRoute routes name with
  | none => .error (.routeNotFound name)
  | some route => .ok (substituteParamsTyped route.path params)

/-- A path still contains an unsubstituted placeholder iff some
`"/"`-separated segment starts with `':'`. -/
def hasColonSegment (s : String) : Bool :=
  (splitOnChar '/' s.data).any (fun seg => leadsWith [':'] seg)

/-- Embedding of the registration bookkeeping of `registerRoute` in the
panicking variant's file: an empty name defaults to `method + ":" + path`,
the recorded path is the builder's accumulated `basePath + path`, and a Go
map assignment overwrites any previous entry under that name (the
association list is consulted front-first, so prepending models the
overwrite).  The gin-side registration only installs the external handler
and is not modelled. -/
def registerRoute (routes : List (String × Route)) (basePath method path name : String) :
    List (String × Route) :=
  let name1 := if name = "" then method ++ ":" ++ path else name
  (name1, { name := name1, path := basePath ++ path, method := method }) :: routes

/-! ### Regex engine and Flask-style route compilation (src/unnamed/part_013)

The per-parameter patterns (`\\d+`, the `.*` default) are compiled by Go's
`regexp.MustCompile` and tested with the unanchored `MatchString`.  The
regular-expression language fragment these patterns use is modelled by a
small AST with Brzozowski-derivative matching; `matchStringR` decides the
unanchored "matches somewhere" relation exactly as `MatchString` does, and
`matchFull` the anchored whole-string match. -/

inductive Reg where
  | eps : Reg
  | cls : (Char → Bool) → Reg
  | seq : Reg → Reg → Reg
  | alt : Reg → Reg → Reg
  | star : Reg → Reg

/-- The empty-language regex (a character class no character satisfies). -/
def Reg.empty : Reg := .cls (fun _ => false)

def Reg.nullable : Reg → Bool
  | .eps => true
  | .cls _ => false
  | .seq a b => a.nullable && b.nullable
  | .alt a b => a.nullable || b.nullable
  | .star _ => true

def Reg.derivC : Reg → Char → Reg
  | .eps, _ => Reg.empty
  | .cls p, c => if p c then .eps else Reg.empty
  | .seq a b, c =>
      if a.nullable then .alt (.seq (a.derivC c) b) (b.derivC c)
      else .seq (a.derivC c) b
  | .alt a b, c => .alt (a.derivC c) (b.derivC c)
  | .star a, c => .seq (a.derivC c) (.star a)

/-- Does some prefix of the list match `r`? -/
def matchesPrefixAt : Reg → List Char → Bool
  | r, [] => r.nullable
  | r, c :: cs => r.nullable || matchesPrefixAt (r.derivC c) cs

/-- Go `regexp.MatchString`: unanchored — does `r` match some substring? -/
def matchStringR : Reg → List Char → Bool
  | r, [] => r.nullable
  | r, c :: cs => matchesPrefixAt r (c :: cs) || matchStringR r cs

/-- Anchored whole-string match (what the validators do NOT use). -/
def matchFull (r : Reg) (l : List Char) : Bool :=
  (l.foldl Reg.derivC r).nullable

/-- One atom of the pattern language the source's route patterns use:
`\\d` (Go digit class `[0-9]`), `.` (any character but newline), or a
literal character; metacharacters that would need more of RE2 are
rejected. -/
def parseAtom : List Char → Option (Reg × List Char)
  | '\\' :: 'd' :: rest => some (.cls Char.isDigit, rest)
  | '.' :: rest => some (.cls (fun c => c != Char.ofNat 10), rest)
  | c :: rest =>
      if c = '+' || c = '*' || c = '\\' || c = '(' || c = ')' ||
          c = '[' || c = ']' || c = '|' || c = '?' then none
      else some (.cls (fun x => x = c), rest)
  | [] => none

def compileAux : Nat → Reg → List Char → Option Reg
  | _, acc, [] => some acc
  | 0, _, _ => none
  | fuel + 1, acc, l =>
      match parseAtom l with
      | none => none
      | some (a, rest) =>
          match rest with
          | '+' :: rest2 => compileAux fuel (.seq acc (.seq a (.star a))) rest2
          | '*' :: rest2 => compileAux fuel (.seq acc (.star a)) rest2
          | _ => compileAux fuel (.seq acc a) rest

/-- Compilation of a route-parameter pattern (`regexp.MustCompile` on the
fragment of RE2 the route patterns use). -/
def compilePattern (pat : String) : Option Reg :=
  compileAux (pat.data.length + 1) .eps pat.data

/-- A route parameter extracted from a `<name:pattern>` path segment. -/
structure routeParam where
  name : String
  pattern : String
  deriving Repr, DecidableEq

/-- One attempted match of the scan regex `<([^>:]+)(?::([^>]+))?>` at a
position just after a `'<'`: a non-empty run of characters other than `'>'`
and `':'` is the name; an optional `':'` introduces a non-empty pattern run
of characters other than `'>'`; a closing `'>'` ends the match.  Returns the
name, the pattern (defaulted to `".*"` when absent, as `parsePath` does) and
the unconsumed remainder. -/
def tryParam (l : List Char) : Option (String × String × List Char) :=
  let name := l.takeWhile (fun c => !(c = '>' || c = ':'))
  let r1 := l.dropWhile (fun c => !(c = '>' || c = ':'))
  if name.isEmpty then none
  else
    match r1 with
    | '>' :: rest => some (String.mk name, ".*", rest)
    | ':' :: r2 =>
        let pat := r2.takeWhile (fun c => !(c = '>'))
        let r3 := r2.dropWhile (fun c => !(c = '>'))
        if pat.isEmpty then none
        else
          match r3 with
          | '>' :: rest => some (String.mk name, String.mk pat, rest)
          | _ => none
    | _ => none

/-- The scan of `RouteBuilder.parsePath`: find the leftmost-first matches of
`<([^>:]+)(?::([^>]+))?>`, replace each with `":" + name`, and accumulate the
parameter list.  Fuel is one unit per scanned character (the wrapper passes
the path length, which suffices since every step consumes at least one
character). -/
def parsePathAux : Nat → List Char → List Char × List routeParam
  | _, [] => ([], [])
  | 0, l => (l, [])
  | fuel + 1, '<' :: rest =>
      match tryParam rest with
      | some (nm, pat, rest2) =>
          let res := parsePathAux fuel rest2
          (':' :: nm.data ++ res.1, { name := nm, pattern := pat } :: res.2)
      | none =>
          let res := parsePathAux fuel rest
          ('<' :: res.1, res.2)
  | fuel + 1, c :: rest =>
      let res := parsePathAux fuel rest
      (c :: res.1, res.2)

/-- Embedding of `RouteBuilder.parsePath`: `"/user/<id:\\d+>"` becomes
`"/user/:id"` plus the parameter list `[{id, \\d+}]`. -/
def parsePath (path : String) : String × List routeParam :=
  let res := parsePathAux path.data.length path.data
  (String.mk res.1, res.2)

/-- Outcome of running a request through the validator chain produced by
`createParamValidators` and then the registered handler. -/
inductive Outcome where
  | aborted (status : Nat)
  | handled (params : List (String × String))
  deriving Repr, DecidableEq

/-- `gin.Context.Param`: the matched path value, or `""` when absent. -/
def cParam (ctx : List (String × String)) (name : String) : String :=
  match ctx.lookup name with
  | some v => v
  | none => ""

/-- Embedding of the middleware chain built by `createParamValidators`: each
validator compiles its parameter's pattern (`regexp.MustCompile`, whose
failure would be a registration-time panic, modelled as `none`) and tests the
matched path value with the unanchored `MatchString`; a failure aborts the
request with status 400 (`AbortWithStatusJSON(400, ...)`), success falls
through to the next validator and finally to the handler, which observes the
path parameters. -/
def runValidators : List routeParam → List (String × String) → Option Outcome
  | [], ctx => some (.handled ctx)
  | p :: rest, ctx =>
      match compilePattern p.pattern with
      | none => none
      | some reg =>
          if matchStringR reg (cParam ctx p.name).data then runValidators rest ctx
          else some (.aborted 400)

/-! ### Claims C2 and C10 -/

/-- Claim C2: compiling the route template `"/user/<id:\\d+>"` yields the
native path `"/user/:id"` with the single validated parameter
`id : \\d+`; running the produced validator chain on a request whose `id`
path parameter is `"abc"` aborts with status 400 before the handler, and on
`id = "42"` the handler runs and observes `id == "42"`. -/
theorem c2_flask_route_compilation :
    parsePath "/user/<id:\\d+>"
        = ("/user/:id", [{ name := "id", pattern := "\\d+" }]) ∧
    runValidators (parsePath "/user/<id:\\d+>").2 [("id", "abc")]
        = some (.aborted 400) ∧
    runValidators (parsePath "/user/<id:\\d+>").2 [("id", "42")]
        = some (.handled [("id", "42")]) ∧
    cParam [("id", "42")] "id" = "42" := by
  exact ⟨rfl, rfl, rfl, rfl⟩

/-- Claim C10: the validators test the path value with the unanchored
`MatchString`, so whenever the parameter's pattern matches some substring of
the value — even when it does not match the value entirely — the validator
accepts and the request falls through towards the handler. -/
theorem c10_validator_match_is_unanchored (p : routeParam) (reg : Reg)
    (ctx : List (String × String)) (rest : List routeParam)
    (hcomp : compilePattern p.pattern = some reg)
    (hsub : matchStringR reg (cParam ctx p.name).data = true)
    (hfull : matchFull reg (cParam ctx p.name).data = false) :
    runValidators (p :: rest) ctx = runValidators rest ctx := by
  have hstep : runValidators (p :: rest) ctx
      = match compilePattern p.pattern with
        | none => none
        | some reg =>
            if matchStringR reg (cParam ctx p.name).data then runValidators rest ctx
            else some (.aborted 400) := rfl
  rw [hstep, hcomp]
  dsimp only
  rw [if_pos hsub]

/-- Claim C10, witness: pattern `\\d+` matches the substring `"123"` of
`"abc123"` but not the whole value, yet the validator passes the request
through to the handler. -/
theorem c10_witness :
    runValidators [{ name := "id", pattern := "\\d+" }] [("id", "abc123")]
        = some (.handled [("id", "abc123")]) := by
  have h := c10_validator_match_is_unanchored
    { name := "id", pattern := "\\d+" }
    (Reg.seq .eps (.seq (.cls Char.isDigit) (.star (.cls Char.isDigit))))
    [("id", "abc123")] [] rfl rfl rfl
  exact h

/-! ### Gzip response wrapper (second middleware variant in
src/pkg/middleware — `GzipWithConfig` with the header-time compression
decision in `gzipWriter.WriteHeader`)

Headers are modelled as a record of the fields the middleware touches
(`Content-Type`, `Content-Length`, `Content-Encoding`, `Vary`); the body is
a list of write events tagged with whether the bytes went through the gzip
stream.  The `sync.Pool` reuse, the writer `Close`, and the compression
`level` have no observable effect on the modelled response and are not
modelled.  `minLength` is carried by the source's config but never consulted
by its `Write` path, and is likewise carried here unused. -/

structure HeaderMap where
  contentType : String
  contentLength : Option Nat
  contentEncoding : Option String
  vary : List String
  deriving Repr, DecidableEq

def emptyHeaders : HeaderMap :=
  { contentType := "", contentLength := none, contentEncoding := none, vary := [] }

/-- State of the wrapping `gzipWriter` (second variant): the wrapped
response headers and status plus the `written`, `size`, `shouldCompr` and
`compressing` flags, and the write events so far. -/
structure GzState where
  headers : HeaderMap
  status : Nat
  written : Bool
  size : Nat
  shouldCompr : Bool
  compressing : Bool
  out : List (Bool × String)
  deriving Repr, DecidableEq

/-- ASCII whitespace, as trimmed by `strings.TrimSpace` on the content types
at hand. -/
def isSpaceChar (c : Char) : Bool :=
  c = ' ' || c = Char.ofNat 9 || c = Char.ofNat 10 || c = Char.ofNat 11 ||
  c = Char.ofNat 12 || c = Char.ofNat 13

/-- `strings.TrimSpace` (ASCII fragment). -/
def trimSpaces (l : List Char) : List Char :=
  ((l.dropWhile isSpaceChar).reverse.dropWhile isSpaceChar).reverse

/-- `strings.ToLower ∘ strings.TrimSpace ∘ (strings.Split · ";")[0]`: the
primary content type (`Char.toLower` lowercases the ASCII range, which
covers media types). -/
def primaryContentType (ct : String) : String :=
  String.mk ((trimSpaces (ct.data.takeWhile (fun c => c != ';'))).map Char.toLower)

/-- `strings.HasPrefix`. -/
def startsWithL (s pre : String) : Bool := leadsWith pre.data s.data

/-- `strings.HasSuffix`. -/
def endsWithL (s suf : String) : Bool := leadsWith suf.data.reverse s.data.reverse

/-- Embedding of `shouldCompress` (second variant): empty content type is
compressible; otherwise the primary type (lowercased, trimmed, before any
`";"`) must have a compressible prefix; known-compressed prefixes and every
unknown type are refused. -/
def shouldCompress (contentType : String) : Bool :=
  if contentType = "" then true
  else
    let ct := primaryContentType contentType
    let compressibleTypes : List String :=
      ["text/", "application/json", "application/javascript", "application/xml",
       "application/x-javascript", "application/xhtml+xml", "application/rss+xml",
       "application/atom+xml", "application/x-font-ttf",
       "application/x-font-opentype", "application/vnd.ms-fontobject",
       "image/svg+xml", "font/"]
    if compressibleTypes.any (fun t => startsWithL ct t) then true
    else
      let compressedTypes : List String :=
        ["image/png", "image/jpeg", "image/jpg", "image/gif", "image/webp",
         "video/", "audio/", "application/zip", "application/gzip",
         "application/x-gzip", "application/x-rar", "application/x-rar-compressed",
         "application/x-7z-compressed", "application/octet-stream",
         "application/pdf"]
      if compressedTypes.any (fun t => startsWithL ct t) then false
      else false

/-- Embedding of `gzipWriter.WriteHeader(code)`: on the first call decide
from the current `Content-Type` whether to compress, and if so (and the
status is not 204/304) drop `Content-Length`, set `Content-Encoding: gzip`
and `Vary: Accept-Encoding` and start compressing; for 204/304 always drop
`Content-Encoding` and stop compressing; finally record the status on the
underlying writer. -/
def gzWriteHeader (g : GzState) (code : Nat) : GzState :=
  let g1 :=
    if g.written = false then
      let g' := { g with
          written := true,
          shouldCompr := shouldCompress g.headers.contentType }
      if g'.shouldCompr = true ∧ code ≠ 204 ∧ code ≠ 304 then
        { g' with
            headers := { g'.headers with
                          contentLength := none,
                          contentEncoding := some "gzip",
                          vary := g'.headers.vary ++ ["Accept-Encoding"] },
            compressing := true }
      else g'
    else g
  let g2 :=
    if code = 204 ∨ code = 304 then
      { g1 with headers := { g1.headers with contentEncoding := none },
                compressing := false }
    else g1
  { g2 with status := code }

/-- Stand-in for the external `http.DetectContentType` sniffing (out of
scope: Go stdlib); only reached when a handler writes without setting a
content type, which none of the verified scenarios do. -/
def detectContentType (_ : String) : String := "application/octet-stream"

/-- Embedding of `gzipWriter.Write(data)`: count the bytes, auto-detect the
content type and issue `WriteHeader(200)` on a first write, then route the
bytes through the gzip stream when compressing and through the raw writer
otherwise. -/
def gzWrite (g : GzState) (data : String) : GzState :=
  let g0 := { g with size := g.size + data.length }
  let g1 :=
    if g0.written = false then
      let g' :=
        if g0.headers.contentType = "" then
          { g0 with headers := { g0.headers with contentType := detectContentType data } }
        else g0
      gzWriteHeader g' 200
    else g0
  if g1.compressing = true then { g1 with out := g1.out ++ [(true, data)] }
  else { g1 with out := g1.out ++ [(false, data)] }

/-- A handler's observable interaction with the response writer: optionally
set `Content-Type` and `Content-Length`, call `WriteHeader(status)`, then
write the body chunks. -/
structure Script where
  contentType : Option String
  contentLength : Option Nat
  status : Nat
  chunks : List String
  deriving Repr, DecidableEq

def setScriptHeaders (h : HeaderMap) (s : Script) : HeaderMap :=
  let h1 :=
    match s.contentType with
    | some ct => { h with contentType := ct }
    | none => h
  match s.contentLength with
  | some n => { h1 with contentLength := some n }
  | none => h1

/-- Run a handler script against the wrapping gzip writer. -/
def runScriptGz (s : Script) : GzState :=
  let g0 : GzState :=
    { headers := setScriptHeaders emptyHeaders s, status := 200, written := false,
      size := 0, shouldCompr := false, compressing := false, out := [] }
  s.chunks.foldl gzWrite (gzWriteHeader g0 s.status)

/-- The final response: headers, status, and tagged body writes. -/
structure HttpResponse where
  headers : HeaderMap
  status : Nat
  out : List (Bool × String)
  deriving Repr, DecidableEq

/-- Run a handler script against the plain (unwrapped) response writer. -/
def runScriptPlain (s : Script) : HttpResponse :=
  { headers := setScriptHeaders emptyHeaders s, status := s.status,
    out := s.chunks.map (fun d => (false, d)) }

structure HttpRequest where
  method : String
  path : String
  acceptEncoding : String
  upgrade : String
  deriving Repr, DecidableEq

/-- Embedding of `clientAcceptsGzip`: the `Accept-Encoding` header contains
the substring `"gzip"`. -/
def clientAcceptsGzip (r : HttpRequest) : Bool :=
  strContains r.acceptEncoding "gzip"

structure GzipConfig where
  level : Int
  minLength : Nat
  excludedExtensions : List String
  excludedPaths : List String
  excludedPathPrefixes : List String
  deriving Repr, DecidableEq

/-- Embedding of `DefaultGzipConfig`. -/
def DefaultGzipConfig : GzipConfig :=
  { level := -1, minLength := 1024,
    excludedExtensions :=
      [".png", ".jpg", ".jpeg", ".gif", ".webp", ".ico",
       ".mp4", ".mp3", ".avi", ".mov",
       ".zip", ".tar", ".gz", ".rar", ".7z",
       ".pdf", ".doc", ".docx", ".xls", ".xlsx"],
    excludedPaths := [], excludedPathPrefixes := [] }

def isWebSocketRequest (r : HttpRequest) : Bool := r.upgrade = "websocket"

/-- Embedding of `shouldSkipRequest`: HEAD/OPTIONS, websocket upgrades, and
excluded paths / path prefixes / extensions are not compressed. -/
def shouldSkipRequest (r : HttpRequest) (cfg : GzipConfig) : Bool :=
  (r.method = "HEAD" || r.method = "OPTIONS") || isWebSocketRequest r ||
  cfg.excludedPaths.any (fun p => r.path = p) ||
  cfg.excludedPathPrefixes.any (fun p => startsWithL r.path p) ||
  cfg.excludedExtensions.any (fun e => endsWithL r.path e)

def GzState.toResponse (g : GzState) : HttpResponse :=
  { headers := g.headers, status := g.status, out := g.out }

/-- Embedding of `GzipWithConfig` (second variant): skip ineligible
requests and clients without gzip support, otherwise replace the writer by
the wrapping `gzipWriter` for the whole handler run.  (The compression
`level` only affects the byte stream, not the modelled observables; a level
outside `[-2, 9]` is reset to the default by the source, with no modelled
effect either.) -/
def gzipWithConfig (cfg : GzipConfig) (req : HttpRequest) (s : Script) : HttpResponse :=
  if shouldSkipRequest req cfg = true then runScriptPlain s
  else if clientAcceptsGzip req = false then runScriptPlain s
  else (runScriptGz s).toResponse

/-! ### Gzip middleware lemmas and claims C3, C6 -/

theorem setScriptHeaders_contentEncoding (h : HeaderMap) (s : Script) :
    (setScriptHeaders h s).contentEncoding = h.contentEncoding := by
  unfold setScriptHeaders
  cases s.contentType <;> cases s.contentLength <;> rfl

theorem setScriptHeaders_contentType (h : HeaderMap) (s : Script) (ct : String)
    (hct : s.contentType = some ct) :
    (setScriptHeaders h s).contentType = ct := by
  unfold setScriptHeaders
  rw [hct]
  cases s.contentLength <;> rfl

/-- After the header has been written, a body write only accumulates size
and appends one event tagged with the current compressing flag. -/
theorem gzWrite_written (g : GzState) (d : String) (hw : g.written = true) :
    gzWrite g d
      = { g with size := g.size + d.length, out := g.out ++ [(g.compressing, d)] } := by
  unfold gzWrite
  dsimp only
  rw [hw, if_neg (by decide : ¬ ((true : Bool) = false))]
  by_cases hc : g.compressing = true
  · rw [if_pos hc, hc]
  · rw [if_neg hc]
    have hfalse : g.compressing = false := by
      revert hc; cases g.compressing <;> simp
    rw [hfalse]

/-- Folding body writes after the header: headers, status and the
compressing flag are stable, and every event carries the compressing tag. -/
theorem foldl_gzWrite_written (chunks : List String) :
    ∀ g : GzState, g.written = true →
      (chunks.foldl gzWrite g).headers = g.headers ∧
      (chunks.foldl gzWrite g).status = g.status ∧
      (chunks.foldl gzWrite g).written = true ∧
      (chunks.foldl gzWrite g).compressing = g.compressing ∧
      (chunks.foldl gzWrite g).out
        = g.out ++ chunks.map (fun d => (g.compressing, d)) := by
  induction chunks with
  | nil =>
      intro g hw
      exact ⟨rfl, rfl, hw, rfl, by simp⟩
  | cons d rest ih =>
      intro g hw
      have hstep : List.foldl gzWrite g (d :: rest)
          = List.foldl gzWrite (gzWrite g d) rest := rfl
      rw [hstep, gzWrite_written g d hw]
      obtain ⟨h1, h2, h3, h4, h5⟩ := ih
        { g with size := g.size + d.length, out := g.out ++ [(g.compressing, d)] } hw
      refine ⟨h1, h2, h3, h4, ?_⟩
      rw [h5]
      simp

/-- `WriteHeader` for a body-less status (204/304) never leaves a
`Content-Encoding`, never starts compressing, and touches no body bytes. -/
theorem gzWriteHeader_body_less (g : GzState) (code : Nat)
    (hcode : code = 204 ∨ code = 304) (hw : g.written = false) :
    (gzWriteHeader g code).headers.contentEncoding = none ∧
    (gzWriteHeader g code).compressing = false ∧
    (gzWriteHeader g code).written = true ∧
    (gzWriteHeader g code).out = g.out := by
  have hneg : ¬ (shouldCompress g.headers.contentType = true ∧ code ≠ 204 ∧ code ≠ 304) := by
    rintro ⟨-, h1, h2⟩
    rcases hcode with rfl | rfl
    exacts [h1 rfl, h2 rfl]
  unfold gzWriteHeader
  dsimp only
  rw [hw, if_pos rfl, if_neg hneg, if_pos hcode]
  exact ⟨rfl, rfl, rfl, rfl⟩

/-- `WriteHeader` on a first call with a compressible content type and a
body-carrying status: drops `Content-Length`, sets `Content-Encoding: gzip`,
starts compressing, and touches no body bytes. -/
theorem gzWriteHeader_compress (g : GzState) (code : Nat)
    (hw : g.written = false)
    (hsc : shouldCompress g.headers.contentType = true)
    (h204 : code ≠ 204) (h304 : code ≠ 304) :
    (gzWriteHeader g code).headers.contentEncoding = some "gzip" ∧
    (gzWriteHeader g code).headers.contentLength = none ∧
    (gzWriteHeader g code).compressing = true ∧
    (gzWriteHeader g code).written = true ∧
    (gzWriteHeader g code).out = g.out := by
  have hneg : ¬ (code = 204 ∨ code = 304) := by
    rintro (rfl | rfl)
    exacts [h204 rfl, h304 rfl]
  unfold gzWriteHeader
  dsimp only
  rw [hw, if_pos rfl, hsc, if_neg hneg, if_pos ⟨rfl, h204, h304⟩]
  exact ⟨rfl, rfl, rfl, rfl, rfl⟩

/-- `WriteHeader` on a first call with a non-compressible content type:
no compression headers, no compression, no body bytes, for any status. -/
theorem gzWriteHeader_no_compress (g : GzState) (code : Nat)
    (hw : g.written = false) (hcp : g.compressing = false)
    (hsc : shouldCompress g.headers.contentType = false)
    (henc : g.headers.contentEncoding = none) :
    (gzWriteHeader g code).headers.contentEncoding = none ∧
    (gzWriteHeader g code).compressing = false ∧
    (gzWriteHeader g code).written = true ∧
    (gzWriteHeader g code).out = g.out := by
  have hneg : ¬ (shouldCompress g.headers.contentType = true ∧ code ≠ 204 ∧ code ≠ 304) := by
    rintro ⟨h1, -, -⟩
    rw [hsc] at h1
    exact Bool.noConfusion h1
  unfold gzWriteHeader
  dsimp only
  rw [hw, if_pos rfl, if_neg hneg]
  by_cases hc : code = 204 ∨ code = 304
  · rw [if_pos hc]
    exact ⟨rfl, rfl, rfl, rfl⟩
  · rw [if_neg hc]
    exact ⟨henc, hcp, rfl, rfl⟩

/-- Claim C3, counterexample: a HEAD request advertising gzip with an
`application/json` response is skipped by `shouldSkipRequest`, so the body
is served uncompressed with no `Content-Encoding: gzip`, although the claim
as stated quantifies only over content type and `Accept-Encoding`. -/
theorem c3_counterexample :
    clientAcceptsGzip
        { method := "HEAD", path := "/api", acceptEncoding := "gzip", upgrade := "" }
      = true ∧
    (gzipWithConfig DefaultGzipConfig
        { method := "HEAD", path := "/api", acceptEncoding := "gzip", upgrade := "" }
        { contentType := some "application/json", contentLength := none,
          status := 200, chunks := ["x"] }).headers.contentEncoding = none ∧
    (gzipWithConfig DefaultGzipConfig
        { method := "HEAD", path := "/api", acceptEncoding := "gzip", upgrade := "" }
        { contentType := some "application/json", contentLength := none,
          status := 200, chunks := ["x"] }).out = [(false, "x")] := by
  exact ⟨rfl, rfl, rfl⟩

/-- Claim C3, amended: an `image/png` response is never compressed and never
carries `Content-Encoding: gzip`, whatever the request; an
`application/json` response to a request that advertises gzip support, is
not skipped by the middleware (method not HEAD/OPTIONS, no websocket
upgrade, path not excluded), and has a body-carrying status, is compressed:
it carries `Content-Encoding: gzip`, no `Content-Length`, and every body
write goes through the gzip stream. -/
theorem c3_gzip_content_type_negotiation :
    (∀ (req : HttpRequest) (s : Script), s.contentType = some "image/png" →
        (gzipWithConfig DefaultGzipConfig req s).headers.contentEncoding ≠ some "gzip" ∧
        ∀ e ∈ (gzipWithConfig DefaultGzipConfig req s).out, e.1 = false) ∧
    (∀ (req : HttpRequest) (s : Script), s.contentType = some "application/json" →
        clientAcceptsGzip req = true →
        shouldSkipRequest req DefaultGzipConfig = false →
        s.status ≠ 204 → s.status ≠ 304 →
        (gzipWithConfig DefaultGzipConfig req s).headers.contentEncoding = some "gzip" ∧
        (gzipWithConfig DefaultGzipConfig req s).headers.contentLength = none ∧
        ∀ e ∈ (gzipWithConfig DefaultGzipConfig req s).out, e.1 = true) := by
  constructor
  · intro req s hct
    by_cases hskip : shouldSkipRequest req DefaultGzipConfig = true
    · unfold gzipWithConfig
      rw [if_pos hskip]
      refine ⟨by simp only [runScriptPlain, setScriptHeaders_contentEncoding]; decide, ?_⟩
      intro e he
      simp only [runScriptPlain] at he
      obtain ⟨d, -, rfl⟩ := List.mem_map.1 he
      rfl
    · by_cases hacc : clientAcceptsGzip req = false
      · unfold gzipWithConfig
        rw [if_neg hskip, if_pos hacc]
        refine ⟨by simp only [runScriptPlain, setScriptHeaders_contentEncoding]; decide, ?_⟩
        intro e he
        simp only [runScriptPlain] at he
        obtain ⟨d, -, rfl⟩ := List.mem_map.1 he
        rfl
      · unfold gzipWithConfig
        rw [if_neg hskip, if_neg hacc]
        unfold runScriptGz
        dsimp only
        have hsc : shouldCompress
            (setScriptHeaders emptyHeaders s).contentType = false := by
          rw [setScriptHeaders_contentType _ s _ hct]
          decide
        obtain ⟨henc, hcomp, hwr, hout⟩ := gzWriteHeader_no_compress
          { headers := setScriptHeaders emptyHeaders s, status := 200, written := false,
            size := 0, shouldCompr := false, compressing := false, out := [] }
          s.status rfl rfl hsc (setScriptHeaders_contentEncoding _ s)
        obtain ⟨h1, -, -, h4, h5⟩ := foldl_gzWrite_written s.chunks _ hwr
        constructor
        · show (List.foldl gzWrite _ s.chunks).headers.contentEncoding ≠ some "gzip"
          rw [h1, henc]
          simp
        · intro e he
          show e.1 = false
          simp only [GzState.toResponse] at he
          rw [h5, hcomp, hout] at he
          rcases List.mem_append.1 he with h | h
          · simp at h
          · obtain ⟨d, -, rfl⟩ := List.mem_map.1 h
            rfl
  · intro req s hct hacc hskip h204 h304
    unfold gzipWithConfig
    rw [if_neg (by rw [hskip]; simp), if_neg (by rw [hacc]; simp)]
    unfold runScriptGz
    dsimp only
    have hsc : shouldCompress (setScriptHeaders emptyHeaders s).contentType = true := by
      rw [setScriptHeaders_contentType _ s _ hct]
      decide
    obtain ⟨henc, hlen, hcomp, hwr, hout⟩ := gzWriteHeader_compress
      { headers := setScriptHeaders emptyHeaders s, status := 200, written := false,
        size := 0, shouldCompr := false, compressing := false, out := [] }
      s.status rfl hsc h204 h304
    obtain ⟨h1, -, -, h4, h5⟩ := foldl_gzWrite_written s.chunks _ hwr
    refine ⟨?_, ?_, ?_⟩
    · show (List.foldl gzWrite _ s.chunks).headers.contentEncoding = some "gzip"
      rw [h1, henc]
    · show (List.foldl gzWrite _ s.chunks).headers.contentLength = none
      rw [h1, hlen]
    · intro e he
      show e.1 = true
      simp only [GzState.toResponse] at he
      rw [h5, hcomp, hout] at he
      rcases List.mem_append.1 he with h | h
      · simp at h
      · obtain ⟨d, -, rfl⟩ := List.mem_map.1 h
        rfl

/-- Claim C3, amended, witness: a PNG is served raw even to a gzip-capable
client, and a JSON response to a gzip-capable GET is compressed with the
right headers. -/
theorem c3_witness :
    (gzipWithConfig DefaultGzipConfig
        { method := "GET", path := "/api", acceptEncoding := "gzip", upgrade := "" }
        { contentType := some "image/png", contentLength := some 4,
          status := 200, chunks := ["PNG!"] }).headers.contentEncoding ≠ some "gzip" ∧
    (gzipWithConfig DefaultGzipConfig
        { method := "GET", path := "/api", acceptEncoding := "gzip", upgrade := "" }
        { contentType := some "application/json", contentLength := some 2,
          status := 200, chunks := ["[]"] }).headers.contentEncoding = some "gzip" ∧
    (gzipWithConfig DefaultGzipConfig
        { method := "GET", path := "/api", acceptEncoding := "gzip", upgrade := "" }
        { contentType := some "application/json", contentLength := some 2,
          status := 200, chunks := ["[]"] }).headers.contentLength = none := by
  refine ⟨?_, ?_, ?_⟩
  · exact (c3_gzip_content_type_negotiation.1
      { method := "GET", path := "/api", acceptEncoding := "gzip", upgrade := "" }
      { contentType := some "image/png", contentLength := some 4,
        status := 200, chunks := ["PNG!"] } rfl).1
  · exact (c3_gzip_content_type_negotiation.2
      { method := "GET", path := "/api", acceptEncoding := "gzip", upgrade := "" }
      { contentType := some "application/json", contentLength := some 2,
        status := 200, chunks := ["[]"] } rfl rfl rfl (by decide) (by decide)).1
  · exact (c3_gzip_content_type_negotiation.2
      { method := "GET", path := "/api", acceptEncoding := "gzip", upgrade := "" }
      { contentType := some "application/json", contentLength := some 2,
        status := 200, chunks := ["[]"] } rfl rfl rfl (by decide) (by decide)).2.1

/-- Claim C6: a 204 or 304 response never carries `Content-Encoding: gzip`
and none of its body writes go through the gzip stream, whatever the
request method, `Accept-Encoding`, path, and content type. -/
theorem c6_no_compression_headers_on_204_304 (req : HttpRequest) (s : Script)
    (hstatus : s.status = 204 ∨ s.status = 304) :
    (gzipWithConfig DefaultGzipConfig req s).headers.contentEncoding ≠ some "gzip" ∧
    ∀ e ∈ (gzipWithConfig DefaultGzipConfig req s).out, e.1 = false := by
  by_cases hskip : shouldSkipRequest req DefaultGzipConfig = true
  · unfold gzipWithConfig
    rw [if_pos hskip]
    refine ⟨by simp only [runScriptPlain, setScriptHeaders_contentEncoding]; decide, ?_⟩
    intro e he
    simp only [runScriptPlain] at he
    obtain ⟨d, -, rfl⟩ := List.mem_map.1 he
    rfl
  · by_cases hacc : clientAcceptsGzip req = false
    · unfold gzipWithConfig
      rw [if_neg hskip, if_pos hacc]
      refine ⟨by simp only [runScriptPlain, setScriptHeaders_contentEncoding]; decide, ?_⟩
      intro e he
      simp only [runScriptPlain] at he
      obtain ⟨d, -, rfl⟩ := List.mem_map.1 he
      rfl
    · unfold gzipWithConfig
      rw [if_neg hskip, if_neg hacc]
      unfold runScriptGz
      dsimp only
      obtain ⟨henc, hcomp, hwr, hout⟩ := gzWriteHeader_body_less
        { headers := setScriptHeaders emptyHeaders s, status := 200, written := false,
          size := 0, shouldCompr := false, compressing := false, out := [] }
        s.status hstatus rfl
      obtain ⟨h1, -, -, h4, h5⟩ := foldl_gzWrite_written s.chunks _ hwr
      constructor
      · show (List.foldl gzWrite _ s.chunks).headers.contentEncoding ≠ some "gzip"
        rw [h1, henc]
        simp
      · intro e he
        show e.1 = false
        simp only [GzState.toResponse] at he
        rw [h5, hcomp, hout] at he
        rcases List.mem_append.1 he with h | h
        · simp at h
        · obtain ⟨d, -, rfl⟩ := List.mem_map.1 h
          rfl

/-- Claim C6, witness: an otherwise fully eligible (GET, gzip-capable,
compressible JSON) 204 response gets no `Content-Encoding: gzip`. -/
theorem c6_witness :
    (gzipWithConfig DefaultGzipConfig
        { method := "GET", path := "/api", acceptEncoding := "gzip", upgrade := "" }
        { contentType := some "application/json", contentLength := none,
          status := 204, chunks := [] }).headers.contentEncoding ≠ some "gzip" :=
  (c6_no_compression_headers_on_204_304
    { method := "GET", path := "/api", acceptEncoding := "gzip", upgrade := "" }
    { contentType := some "application/json", contentLength := none,
      status := 204, chunks := [] } (Or.inl rfl)).1

/-! ### Claims C4 and C8 -/

theorem cutColon_eq_none_iff (part : List Char) :
    cutColon part = none ↔ leadsWith [':'] part = false := by
  unfold cutColon
  split <;> simp_all

/-- A path has no unsubstituted placeholder segment exactly when the
missing-parameter scan comes back empty. -/
theorem collectMissing_eq_nil_iff (path : String) :
    collectMissing path = [] ↔ hasColonSegment path = false := by
  unfold collectMissing hasColonSegment
  by_cases hc : strContains path ":"
  · rw [if_pos hc]
    rw [List.filterMap_eq_nil_iff]
    constructor
    · intro h
      rw [← Bool.not_eq_true, List.any_eq_true]
      rintro ⟨seg, hseg, hlead⟩
      have := h seg hseg
      rw [Option.map_eq_none', cutColon_eq_none_iff] at this
      rw [this] at hlead
      cases hlead
    · intro h seg hseg
      rw [Option.map_eq_none', cutColon_eq_none_iff]
      rw [← Bool.not_eq_true, List.any_eq_true] at h
      by_contra hne
      exact h ⟨seg, hseg, by revert hne; cases leadsWith [':'] seg <;> simp⟩
  · rw [if_neg hc]
    simp only [true_iff]
    rw [← Bool.not_eq_true, List.any_eq_true]
    rintro ⟨seg, hseg, hlead⟩
    have hmem : (':' : Char) ∈ seg := by
      cases seg with
      | nil => cases hlead
      | cons a t =>
          simp only [leadsWith, Bool.and_eq_true, decide_eq_true_eq] at hlead
          rw [hlead.1]
          exact List.mem_cons_self _ _
    have hin : (':' : Char) ∈ path.data :=
      mem_of_mem_splitOnChar '/' path.data seg hseg ':' hmem
    have : strContains path ":" = true := by
      show containsSub [':'] path.data = true
      exact (containsSub_singleton ':' path.data).2 hin
    exact hc (by rw [this])

/-- Claim C4: registering `GET /user/:id` under the name `user@get` and
calling `BuildUrl("user@get", {id: 42})` yields `/user/42` in both variants;
for every name absent from the route registry both variants produce an
explicit route-not-found failure (a panic, modelled as `Except.error`, in
one; a returned error in the other); and the panicking variant never returns
a path in which a placeholder is left unsubstituted. -/
theorem c4_buildUrl_named_route :
    buildUrl (registerRoute [] "" "GET" "/user/:id" "user@get") "user@get"
        [("id", GoValue.int 42)] = .ok "/user/42" ∧
    buildUrlTyped (registerRoute [] "" "GET" "/user/:id" "user@get") "user@get"
        [("id", GoValue.int 42)] = .ok "/user/42" ∧
    (∀ (routes : List (String × Route)) (name : String) (params : List (String × GoValue)),
      lookupRoute routes name = none →
        buildUrl routes name params = .error (.routeNotFound name) ∧
        buildUrlTyped routes name params = .error (.routeNotFound name)) ∧
    ∀ (routes : List (String × Route)) (name : String) (params : List (String × GoValue))
        (s : String),
      buildUrl routes name params = .ok s → hasColonSegment s = false := by
  refine ⟨rfl, rfl, ?_, ?_⟩
  · intro routes name params h
    unfold buildUrl buildUrlTyped
    rw [h]
    exact ⟨rfl, rfl⟩
  · intro routes name params s hs
    cases hlook : lookupRoute routes name with
    | none =>
        unfold buildUrl at hs
        rw [hlook] at hs
        cases hs
    | some route =>
        have hbuild : buildUrl routes name params =
            (if (collectMissing (substituteParams route.path params)).isEmpty
              then .ok (substituteParams route.path params)
              else .error
                (.missingParams (collectMissing (substituteParams route.path params)))) := by
          unfold buildUrl
          rw [hlook]
        rw [hbuild] at hs
        by_cases he : (collectMissing (substituteParams route.path params)).isEmpty
        · rw [if_pos he] at hs
          have hval : substituteParams route.path params = s := by
            injection hs
          rw [← hval]
          exact (collectMissing_eq_nil_iff _).1 (by simpa [List.isEmpty_iff] using he)
        · rw [if_neg he] at hs
          cases hs

/-- Claim C4, witness: an unregistered name fails explicitly in both
variants, and the successfully built `/user/42` has no leftover
placeholder. -/
theorem c4_witness :
    buildUrl [] "user@post" [] = .error (.routeNotFound "user@post") ∧
    buildUrlTyped [] "user@post" [] = .error (.routeNotFound "user@post") ∧
    hasColonSegment "/user/42" = false := by
  refine ⟨(c4_buildUrl_named_route.2.2.1 [] "user@post" [] rfl).1,
    (c4_buildUrl_named_route.2.2.1 [] "user@post" [] rfl).2, ?_⟩
  exact c4_buildUrl_named_route.2.2.2 (registerRoute [] "" "GET" "/user/:id" "user@get")
    "user@get" [("id", GoValue.int 42)] "/user/42" c4_buildUrl_named_route.1

/-- Claim C8: in the panicking `BuildUrl` variant, if after substituting the
supplied parameters the path still contains a `':'`-prefixed segment, the
call panics naming the missing parameters (the segments' names, in order);
and a returned path never contains a `':'`-prefixed segment. -/
theorem c8_panic_on_unsubstituted_placeholder (routes : List (String × Route))
    (name : String) (params : List (String × GoValue)) (route : Route)
    (hfound : lookupRoute routes name = some route) :
    (hasColonSegment (substituteParams route.path params) = true →
        buildUrl routes name params
          = .error (.missingParams (collectMissing (substituteParams route.path params))) ∧
        collectMissing (substituteParams route.path params) ≠ []) ∧
    ∀ s, buildUrl routes name params = .ok s → hasColonSegment s = false := by
  have hbuild : buildUrl routes name params =
      (if (collectMissing (substituteParams route.path params)).isEmpty
        then .ok (substituteParams route.path params)
        else .error (.missingParams (collectMissing (substituteParams route.path params)))) := by
    unfold buildUrl
    rw [hfound]
  constructor
  · intro hcol
    have hne : collectMissing (substituteParams route.path params) ≠ [] := by
      intro h0
      rw [(collectMissing_eq_nil_iff _).1 h0] at hcol
      cases hcol
    rw [hbuild, if_neg (by simpa [List.isEmpty_iff] using hne)]
    exact ⟨rfl, hne⟩
  · intro s hs
    rw [hbuild] at hs
    by_cases he : (collectMissing (substituteParams route.path params)).isEmpty
    · rw [if_pos he] at hs
      have hval : substituteParams route.path params = s := by
        injection hs
      rw [← hval]
      exact (collectMissing_eq_nil_iff _).1 (by simpa [List.isEmpty_iff] using he)
    · rw [if_neg he] at hs
      cases hs

/-- Claim C8, witness: the route `/user/:id` built with no parameters panics
naming `id`; and with `id` supplied the returned path has no placeholder
left. -/
theorem c8_witness :
    buildUrl [("user@get", { name := "user@get", path := "/user/:id", method := "GET" })]
        "user@get" [] = .error (.missingParams ["id"]) ∧
    hasColonSegment "/user/42" = false := by
  constructor
  · exact ((c8_panic_on_unsubstituted_placeholder
      [("user@get", { name := "user@get", path := "/user/:id", method := "GET" })]
      "user@get" [] { name := "user@get", path := "/user/:id", method := "GET" }
      rfl).1 (by decide)).1
  · exact (c8_panic_on_unsubstituted_placeholder
      [("user@get", { name := "user@get", path := "/user/:id", method := "GET" })]
      "user@get" [("id", GoValue.int 42)]
      { name := "user@get", path := "/user/:id", method := "GET" } rfl).2 "/user/42" rfl

/-! ### Session cookie options (pkg/session/session.go)

`Start` selects a backing store (redis / gorm / memory / cookie — external
library constructors with no bearing on the cookie options) and then applies
one `sessions.Options` value to it.  Only the option computation is
modelled. -/

inductive SameSite where
  | defaultMode
  | laxMode
  | strictMode
  | noneMode
  deriving Repr, DecidableEq

/-- Embedding of `parseSameSite` (a `switch` on the config string). -/
def parseSameSite (s : String) : SameSite :=
  if s = "lax" then .laxMode
  else if s = "strict" then .strictMode
  else if s = "none" then .noneMode
  else .defaultMode

/-- The session-relevant fields of `config.SessionConfig`. -/
structure SessionConfig where
  name : String
  secret : String
  store : String
  path : String
  domain : String
  maxAge : Nat
  secure : Bool
  httpOnly : Bool
  sameSite : String
  deriving Repr, DecidableEq

/-- `sessions.Options` as applied by `Start`. -/
structure CookieOptions where
  path : String
  domain : String
  maxAge : Nat
  secure : Bool
  httpOnly : Bool
  sameSite : SameSite
  deriving Repr, DecidableEq

/-- Embedding of the option computation in `Start`:
`sameSite := parseSameSite(cfg.SameSite)`; `secure := cfg.Secure`;
`if sameSite == SameSiteNoneMode && !secure { secure = true }`; then the
options record, with MaxAge converted from minutes to seconds. -/
def sessionCookieOptions (cfg : SessionConfig) : CookieOptions :=
  let sameSite := parseSameSite cfg.sameSite
  let secure := if sameSite = .noneMode ∧ cfg.secure = false then true else cfg.secure
  { path := cfg.path, domain := cfg.domain, maxAge := cfg.maxAge * 60,
    secure := secure, httpOnly := cfg.httpOnly, sameSite := sameSite }

/-! ### Claim C9 -/

/-- Claim C9: when the configuration selects `SameSite = "none"` with
`secure = false`, `Start` silently corrects the applied options to
`secure = true`; in general the applied options always satisfy
"SameSite None implies Secure". -/
theorem c9_samesite_none_implies_secure (cfg : SessionConfig) :
    ((sessionCookieOptions cfg).sameSite = .noneMode →
        (sessionCookieOptions cfg).secure = true) ∧
    (cfg.sameSite = "none" → cfg.secure = false →
        (sessionCookieOptions cfg).secure = true) := by
  unfold sessionCookieOptions
  dsimp only
  constructor
  · intro hss
    by_cases hnone : parseSameSite cfg.sameSite = SameSite.noneMode
    · by_cases hsec : cfg.secure = false
      · rw [if_pos ⟨hnone, hsec⟩]
      · rw [if_neg (by rintro ⟨-, h⟩; exact hsec h)]
        revert hsec
        cases cfg.secure <;> simp
    · exact absurd hss hnone
  · intro hnone hsec
    rw [if_pos ⟨by rw [hnone]; rfl, hsec⟩]

/-- Claim C9, witness: a config with `SameSite = "none"` and
`secure = false` is applied with `secure = true`. -/
theorem c9_witness :
    (sessionCookieOptions
      { name := "session", secret := "s", store := "cookie", path := "/",
        domain := "", maxAge := 30, secure := false, httpOnly := true,
        sameSite := "none" }).secure = true :=
  (c9_samesite_none_implies_secure
    { name := "session", secret := "s", store := "cookie", path := "/",
      domain := "", maxAge := 30, secure := false, httpOnly := true,
      sameSite := "none" }).2 rfl rfl

end GoFramework


